import Mathlib

/-
Verification development for the phishing-email detection pipeline:
data_preprocessor.py, feature_extractor.py, model_trainer.py, app.py.

Text is modelled as a list of characters (a Python str).  Numbers carried in
feature vectors are modelled as rationals.  Character predicates follow the
ASCII fragment of the corresponding Python str methods (isupper, lower, the
regex classes); the repository's own logic is ASCII throughout.  Fallible
calls are modelled with Except.  Components the repository takes from
third-party libraries (scikit-learn, NLTK, BeautifulSoup) are modelled from
the specification; each such definition carries a doc comment saying so.
-/

namespace PhishingDetector

/-- Raw text: a Python str as a list of characters. -/
abbrev Text := List Char

/-- Python str.lower for the ASCII range: uppercase letters map to lowercase,
every other character is unchanged. -/
def pyLower (c : Char) : Char := if c.isUpper then Char.ofNat (c.toNat + 32) else c

/-- Whitespace recognised by Python str.split and the regex class for
whitespace (ASCII part). -/
def pySpace (c : Char) : Bool :=
  c = ' ' || c = '\t' || c = '\n' || c = '\r' || c = '\x0b' || c = '\x0c'

/-- Python str.split() with no separator: the maximal runs of non-whitespace
characters, with no empty pieces. -/
def pySplit (l : Text) : List Text :=
  match l with
  | [] => []
  | c :: rest =>
    if pySpace c then pySplit rest
    else
      (c :: rest.takeWhile (fun d => !pySpace d)) ::
        pySplit (rest.drop (rest.takeWhile (fun d => !pySpace d)).length)
termination_by l.length
decreasing_by
  all_goals simp [List.length_drop]
  all_goals omega

/-- Python re.split on a one-character-class-run pattern: the pieces between
the maximal runs of characters satisfying p, keeping empty pieces, as re.split
keeps them; splitting always yields at least one piece. -/
def re_split_runs (p : Char → Bool) (l : Text) : List Text :=
  match l with
  | [] => [[]]
  | c :: rest =>
    if p c then [] :: re_split_runs p (rest.drop (rest.takeWhile p).length)
    else
      match re_split_runs p rest with
      | [] => [[c]]
      | piece :: more => (c :: piece) :: more
termination_by l.length
decreasing_by
  all_goals simp [List.length_drop]
  all_goals omega

/-- Modelled from the spec: BeautifulSoup get_text in
EmailPreprocessor.remove_html_tags — "strips markup ... tags and their content
markers stripped".  Spans from a left angle bracket through the next right
angle bracket are dropped (an unterminated tag drops the remainder); entity
references are not decoded, which no claim depends on. -/
def remove_html_tags (l : Text) : Text :=
  match l with
  | [] => []
  | c :: rest =>
    if c = '<' then
      remove_html_tags (rest.drop ((rest.takeWhile (fun d => d ≠ '>')).length + 1))
    else c :: remove_html_tags rest
termination_by l.length
decreasing_by
  all_goals simp [List.length_drop]
  all_goals omega

/-- Character class matched inside a URL body by the regex of
data_preprocessor.py (remove_urls / extract_urls); the bracket expression with
the dollar sign and the underscore is the character range 0x24..0x5F, and the
three-character percent-escape alternative is subsumed by that range, which
already contains the percent sign. -/
def urlChar (c : Char) : Bool :=
  c.isAlpha || c.isDigit || ('$' ≤ c && c ≤ '_') ||
  c = '!' || c = '*' || c = '\\' || c = '(' || c = ')' || c = ','

/-- Leftmost match of the URL regex anchored at the head of l: the scheme
(the greedy optional s tried first) followed by one or more body characters;
returns the matched length. -/
def matchUrlAt (l : Text) : Option Nat :=
  let body8 := (l.drop 8).takeWhile urlChar
  let body7 := (l.drop 7).takeWhile urlChar
  if List.isPrefixOf ("https://".toList) l then
    if body8.length = 0 then none else some (8 + body8.length)
  else if List.isPrefixOf ("http://".toList) l then
    if body7.length = 0 then none else some (7 + body7.length)
  else none

/-- The re module scan loop for the URL pattern: leftmost non-overlapping
matches, advancing one character after a position with no match; returns the
matches and the text with the matches removed (findall and sub share it).
Fuel is the initial length, enough as every step consumes a character. -/
def scanUrls : Nat → Text → List Text × Text
  | 0, l => ([], l)
  | _ + 1, [] => ([], [])
  | fuel + 1, c :: rest =>
    match matchUrlAt (c :: rest) with
    | some n =>
      let s := scanUrls fuel ((c :: rest).drop n)
      (((c :: rest).take n) :: s.1, s.2)
    | none =>
      let s := scanUrls fuel rest
      (s.1, c :: s.2)

/-- EmailPreprocessor.extract_urls. -/
def extract_urls (t : Text) : List Text := if t.isEmpty then [] else (scanUrls t.length t).1

/-- EmailPreprocessor.remove_urls. -/
def remove_urls (t : Text) : Text := (scanUrls t.length t).2

/-- Regex word character (letters, digits, underscore), for word boundaries. -/
def isWordChar (c : Char) : Bool := c.isAlpha || c.isDigit || c = '_'

/-- Local-part class of the email regex of data_preprocessor.py. -/
def localChar (c : Char) : Bool :=
  c.isAlpha || c.isDigit || c = '.' || c = '_' || c = '%' || c = '+' || c = '-'

/-- Domain class of the email regex. -/
def domainChar (c : Char) : Bool := c.isAlpha || c.isDigit || c = '.' || c = '-'

/-- Top-level-domain class of the email regex: the source writes the class as
uppercase range, a literal vertical bar, lowercase range — so the bar is a
member. -/
def tldChar (c : Char) : Bool := c.isAlpha || c = '|'

/-- Word boundary between a character and the following one (none stands for
the end of the text, a non-word position). -/
def bdry (a : Char) (b : Option Char) : Bool :=
  isWordChar a != (match b with | some c => isWordChar c | none => false)

/-- Greedy backtracking search for the final two-or-more letter run with a
trailing word boundary: r is the maximal run of TLD characters, nxt the
character after the run; lengths are tried descending, stopping below 2. -/
def findTldLen (r : Text) (nxt : Option Char) : Nat → Option Nat
  | 0 => none
  | k + 1 =>
    if k + 1 < 2 then none
    else
      let lastC := r.getD k ' '
      let nextC := if k + 1 < r.length then some (r.getD (k + 1) ' ') else nxt
      if bdry lastC nextC then some (k + 1) else findTldLen r nxt k

/-- TLD match at the head of l (the text after the dot). -/
def tldAt (l : Text) : Option Nat :=
  let r := l.takeWhile tldChar
  findTldLen r ((l.dropWhile tldChar).head?) r.length

/-- Backtracking over the greedy domain repetition: rest2 is the text after
the at-sign, d its maximal run of domain characters; the literal dot is tried
at offsets j descending (the maximal repetition first, given back one
character at a time), each followed by a TLD match. -/
def findDomSplit (rest2 d : Text) : Nat → Option (Nat × Nat)
  | 0 => none
  | jj + 1 =>
    if d.getD (jj + 1) ' ' = '.' then
      match tldAt (rest2.drop (jj + 2)) with
      | some k => some (jj + 1, k)
      | none => findDomSplit rest2 d jj
    else findDomSplit rest2 d jj

/-- Leftmost match of the email regex anchored at the head of l, with prevW
the word-character status of the preceding character (for the leading word
boundary); returns the matched length. -/
def matchEmailAt (prevW : Bool) (l : Text) : Option Nat :=
  let localPart := l.takeWhile localChar
  if localPart.length = 0 then none
  else if !(prevW != isWordChar (l.getD 0 ' ')) then none
  else
    match l.drop localPart.length with
    | '@' :: rest2 =>
      let d := rest2.takeWhile domainChar
      if d.length = 0 then none
      else
        match findDomSplit rest2 d (d.length - 1) with
        | some jk => some (localPart.length + 1 + jk.1 + 1 + jk.2)
        | none => none
    | _ => none

/-- The re module scan loop for the email pattern, tracking the previous
character for word boundaries; returns matches and the text with the matches
removed. -/
def scanEmails : Nat → Bool → Text → List Text × Text
  | 0, _, l => ([], l)
  | _ + 1, _, [] => ([], [])
  | fuel + 1, prevW, c :: rest =>
    match matchEmailAt prevW (c :: rest) with
    | some n =>
      let m := (c :: rest).take n
      let s := scanEmails fuel (isWordChar (m.getLastD ' ')) ((c :: rest).drop n)
      (m :: s.1, s.2)
    | none =>
      let s := scanEmails fuel (isWordChar c) rest
      (s.1, c :: s.2)

/-- EmailPreprocessor.extract_emails. -/
def extract_emails (t : Text) : List Text :=
  if t.isEmpty then [] else (scanEmails t.length false t).1

/-- EmailPreprocessor.remove_emails. -/
def remove_emails (t : Text) : Text := (scanEmails t.length false t).2

/-- EmailPreprocessor.remove_special_chars: the substitution deleting every
character that is not an ASCII letter and not whitespace. -/
def remove_special_chars (t : Text) : Text := t.filter (fun c => c.isAlpha || pySpace c)

/-- Modelled from the spec: the NLTK English stopword set loaded by
EmailPreprocessor ("a fixed English stopword set"); a fixed representative set
of common English words. -/
def stop_words : List Text :=
  (["i", "me", "my", "we", "our", "ours", "you", "your", "yours", "he", "him",
    "his", "she", "her", "hers", "it", "its", "they", "them", "their", "what",
    "which", "who", "whom", "this", "that", "these", "those", "am", "is",
    "are", "was", "were", "be", "been", "being", "have", "has", "had", "do",
    "does", "did", "a", "an", "the", "and", "but", "if", "or", "because",
    "as", "until", "while", "of", "at", "by", "for", "with", "about",
    "against", "between", "into", "through", "during", "before", "after",
    "above", "below", "to", "from", "up", "down", "in", "out", "on", "off",
    "over", "under", "again", "further", "then", "once", "here", "there",
    "when", "where", "why", "how", "all", "any", "both", "each", "few",
    "more", "most", "other", "some", "such", "no", "nor", "not", "only",
    "own", "same", "so", "than", "too", "very", "can", "will", "just",
    "should", "now"]).map String.toList

/-- Modelled from the spec: NLTK word_tokenize — "splits into word tokens";
modelled as the maximal runs of ASCII alphanumeric characters. -/
def word_tokenize (t : Text) : List Text :=
  match t with
  | [] => []
  | c :: rest =>
    if c.isAlphanum then
      (c :: rest.takeWhile Char.isAlphanum) ::
        word_tokenize (rest.drop (rest.takeWhile Char.isAlphanum).length)
    else word_tokenize rest
termination_by t.length
decreasing_by
  all_goals simp [List.length_drop]
  all_goals omega

/-- Drop a doubled final letter, as the Porter stemmer does after removing
some suffixes (running → runn → run). -/
def undouble (w : Text) : Text :=
  if 2 ≤ w.length ∧ w.getLastD ' ' = w.dropLast.getLastD ' ' then w.dropLast else w

/-- Modelled from the spec: the NLTK PorterStemmer used by tokenize_and_clean
— "a suffix-stripping stemming algorithm (Porter-style: reduces words to a
common root by iteratively removing standard English suffixes, e.g.
running→run, flies→fli)"; a fixed Porter-style rule list covering the
specification's examples. -/
def stem (w : Text) : Text :=
  let w1 :=
    if List.isSuffixOf ("sses".toList) w then w.dropLast.dropLast
    else if List.isSuffixOf ("ies".toList) w then w.dropLast.dropLast
    else if List.isSuffixOf ("ss".toList) w then w
    else if List.isSuffixOf ("s".toList) w then w.dropLast
    else w
  if List.isSuffixOf ("ing".toList) w1 ∧ 6 ≤ w1.length then
    undouble (w1.take (w1.length - 3))
  else if List.isSuffixOf ("ed".toList) w1 ∧ 5 ≤ w1.length then
    undouble (w1.take (w1.length - 2))
  else w1

/-- EmailPreprocessor.tokenize_and_clean: lowercase, tokenize, drop stopwords
and tokens of length two or less, stem the survivors; empty input gives the
empty token sequence. -/
def tokenize_and_clean (t : Text) : List Text :=
  if t.isEmpty then []
  else
    ((word_tokenize (t.map pyLower)).filter
        (fun tok => !(stop_words.contains tok) && decide (2 < tok.length))).map stem

/-- EmailPreprocessor.preprocess_email: the full sanitisation pipeline —
markup, URLs, addresses, special characters removed, then tokenised, cleaned
and joined by single spaces; empty input gives the empty string. -/
def preprocess_email (t : Text) : Text :=
  if t.isEmpty then []
  else
    List.intercalate (" ".toList)
      (tokenize_and_clean
        (remove_special_chars (remove_emails (remove_urls (remove_html_tags t)))))

/-- FeatureExtractor.suspicious_words, verbatim from feature_extractor.py. -/
def suspicious_words : List Text :=
  (["urgent", "immediate", "act now", "limited time", "expires",
    "click here", "click now", "verify", "confirm", "update",
    "suspend", "suspended", "account", "security", "alert",
    "warning", "congratulations", "winner", "prize", "lottery",
    "free", "bonus", "offer", "deal", "discount", "save",
    "money", "cash", "credit", "loan", "debt", "investment",
    "guarantee", "risk-free", "no obligation", "act fast",
    "don\x27t delay", "hurry", "rush", "now", "today only",
    "limited offer", "exclusive", "special", "amazing",
    "incredible", "unbelievable", "fantastic", "wonderful"]).map String.toList

/-- Python substring containment: needle in hay. -/
def containsSub (needle : Text) : Text → Bool
  | [] => needle.isEmpty
  | c :: t => List.isPrefixOf needle (c :: t) || containsSub needle t

/-- The suspicious-word count of extract_basic_features: one per listed term
whose lowercased form occurs in the lowercased text. -/
def suspicious_count (t : Text) : Nat :=
  List.countP (fun w => containsSub (w.map pyLower) (t.map pyLower)) suspicious_words

/-- FeatureExtractor.extract_basic_features: the eight basic statistics, with
the all-zero vector on empty (falsy) input. -/
def extract_basic_features (t : Text) : List Rat :=
  if t.isEmpty then List.replicate 8 0
  else
    [(t.length : Rat),
     ((pySplit t).length : Rat),
     (t.length : Rat),
     ((extract_urls t).length : Rat),
     ((extract_emails t).length : Rat),
     (suspicious_count t : Rat),
     ((t.countP (fun c => c.isUpper)) : Rat) / ((max t.length 1 : Nat) : Rat),
     (t.count '!' : Rat)]

/-- Sentence-ending characters of the sentence-splitting regex. -/
def sentEnd (c : Char) : Bool := c = '.' || c = '!' || c = '?'

/-- FeatureExtractor.extract_advanced_features: the five advanced linguistic
statistics, with the all-zero vector on empty (falsy) input. -/
def extract_advanced_features (t : Text) : List Rat :=
  if t.isEmpty then List.replicate 5 0
  else
    [(if (pySplit t).isEmpty then 0
      else (((pySplit t).map List.length).sum : Rat) / ((pySplit t).length : Rat)),
     ((re_split_runs sentEnd t).length : Rat),
     ((pySplit t).length : Rat) / ((max (re_split_runs sentEnd t).length 1 : Nat) : Rat),
     (t.count '?' : Rat),
     ((t.countP (fun c => c.isUpper)) : Rat)]

/-- Error taxonomy of the pipeline, from the spec's error-handling design:
transform before fit, component shape disagreement, bundle not loaded. -/
inductive PipelineError where
  | notFitted
  | shapeMismatch (got expected : Nat)
  | notLoaded
deriving DecidableEq

/-- State of the scikit-learn TfidfVectorizer held by FeatureExtractor: the
configured maximum vocabulary size and, once fit, the vocabulary as terms
paired with their inverse-document-frequency weights. -/
structure TfidfVectorizer where
  max_features : Nat
  vocab : Option (List (Text × Rat))

/-- The vectorizer as FeatureExtractor.__init__ configures it:
max_features 1000, not yet fit. -/
def TfidfVectorizer.init : TfidfVectorizer := ⟨1000, none⟩

/-- Modelled from the spec: TfidfVectorizer token analysis with ngram_range
(1, 2) — lowercased word tokens of two or more characters with English
stopwords excluded, plus the adjacent-pair bigrams joined by a space. -/
def ngram_terms (doc : Text) : List Text :=
  (pySplit (doc.map pyLower)).filter
      (fun w => decide (2 ≤ w.length) && !(stop_words.contains w)) ++
    List.zipWith (fun a b => a ++ ' ' :: b)
      ((pySplit (doc.map pyLower)).filter
        (fun w => decide (2 ≤ w.length) && !(stop_words.contains w)))
      ((pySplit (doc.map pyLower)).filter
        (fun w => decide (2 ≤ w.length) && !(stop_words.contains w))).tail

/-- Descending stable insertion by count, for vocabulary selection. -/
def insertByCount (x : Text × Nat) : List (Text × Nat) → List (Text × Nat)
  | [] => [x]
  | y :: ys => if y.2 < x.2 then x :: y :: ys else y :: insertByCount x ys

/-- Descending stable sort by count. -/
def sortByCount (l : List (Text × Nat)) : List (Text × Nat) := l.foldr insertByCount []

/-- Modelled from the spec: TfidfVectorizer.fit — "builds Vocabulary from
sanitized+tokenized versions of the corpus, selecting up to a maximum number
of unigram/bigram terms by corpus-wide importance, excluding English
stopwords"; importance is modelled as total corpus frequency, and the stored
per-term weight (1 + nDocs) / (1 + docFreq) discounts terms frequent across
the whole corpus (scikit-learn stores the logarithm of that quotient plus
one, which is irrational; the rational quotient keeps the same discounting
order, and no claim depends on the magnitudes). -/
def TfidfVectorizer.fit (v : TfidfVectorizer) (docs : List Text) : TfidfVectorizer :=
  let docTerms := docs.map ngram_terms
  let allTerms := docTerms.foldr (· ++ ·) []
  let counted := allTerms.dedup.map (fun term => (term, allTerms.count term))
  let selected := ((sortByCount counted).take v.max_features).map Prod.fst
  ⟨v.max_features,
   some (selected.map (fun term =>
     (term, ((1 + docs.length : Nat) : Rat) /
       ((1 + docTerms.countP (fun dts => dts.contains term) : Nat) : Rat))))⟩

/-- Modelled from the spec: TfidfVectorizer.transform — before fit it is an
error ("Calling transform before fit is an error (NotFittedError)";
scikit-learn raises, modelled as Except.error); once fit, the document is
projected onto the vocabulary, each entry the term's count in the document
weighted by the stored inverse document frequency, terms outside the
vocabulary contributing nothing. -/
def TfidfVectorizer.transform (v : TfidfVectorizer) (doc : Text) :
    Except PipelineError (List Rat) :=
  match v.vocab with
  | none => .error .notFitted
  | some entries => .ok (entries.map (fun e => ((ngram_terms doc).count e.1 : Rat) * e.2))

/-- FeatureExtractor: its only persistent state is the TF-IDF vectorizer (the
preprocessor is stateless). -/
structure FeatureExtractor where
  tfidf_vectorizer : TfidfVectorizer

/-- FeatureExtractor.__init__. -/
def FeatureExtractor.init : FeatureExtractor := ⟨TfidfVectorizer.init⟩

/-- FeatureExtractor.fit_tfidf: fit the vectorizer on the preprocessed
training texts. -/
def fit_tfidf (fe : FeatureExtractor) (email_texts : List Text) : FeatureExtractor :=
  ⟨fe.tfidf_vectorizer.fit (email_texts.map preprocess_email)⟩

/-- FeatureExtractor.extract_tfidf_features: preprocess, then transform with
the vectorizer. -/
def extract_tfidf_features (fe : FeatureExtractor) (t : Text) :
    Except PipelineError (List Rat) :=
  fe.tfidf_vectorizer.transform (preprocess_email t)

/-- FeatureExtractor.extract_all_features: basic, advanced and TF-IDF
features concatenated in that fixed order. -/
def extract_all_features (fe : FeatureExtractor) (t : Text) :
    Except PipelineError (List Rat) :=
  match extract_tfidf_features fe t with
  | .error e => .error e
  | .ok tfidf_features =>
    .ok (extract_basic_features t ++ extract_advanced_features t ++ tfidf_features)

/-- Fitted state of the scikit-learn StandardScaler: per-column mean and
positive scale divisor. -/
structure StandardScaler where
  mean : List Rat
  scale : List Rat

/-- Mean of one column. -/
def colMean (c : List Rat) : Rat := c.sum / (c.length : Rat)

/-- Population variance of one column (scikit-learn uses ddof 0). -/
def colVar (c : List Rat) : Rat :=
  ((c.map (fun x => (x - colMean c) ^ 2)).sum) / (c.length : Rat)

/-- Modelled from the spec (Scaler, §4.6): the per-column divisor — the
standard deviation, with zero replaced by 1 so a zero-variance column divides
by one (scikit-learn handles zeros in scale the same way).  The square root
of the variance is irrational in general, so the model keeps the variance
itself as the positive divisor: it is zero, and is replaced, exactly when the
standard deviation is, which is all the zero-variance contract depends on. -/
def scaleOfCol (c : List Rat) : Rat := if colVar c = 0 then 1 else colVar c

/-- Column j of a row-major matrix. -/
def columnJ (X : List (List Rat)) (j : Nat) : List Rat := X.map (fun row => row.getD j 0)

/-- Modelled from the spec: StandardScaler.fit — per-column mean and scale
over the training matrix, nFeatures the fixed row width. -/
def StandardScaler.fit (nFeatures : Nat) (X : List (List Rat)) : StandardScaler :=
  ⟨(List.range nFeatures).map (fun j => colMean (columnJ X j)),
   (List.range nFeatures).map (fun j => scaleOfCol (columnJ X j))⟩

/-- Three-way zip, for the per-column standardisation. -/
def zipWith3 (f : Rat → Rat → Rat → Rat) : List Rat → List Rat → List Rat → List Rat
  | a :: as, b :: bs, c :: cs => f a b c :: zipWith3 f as bs cs
  | _, _, _ => []

/-- Modelled from the spec: StandardScaler.transform — subtract the mean and
divide by the scale per column; a vector whose length disagrees with the
fitted width is an error (scikit-learn raises on a feature-count mismatch),
never truncated or padded. -/
def StandardScaler.transform (sc : StandardScaler) (v : List Rat) :
    Except PipelineError (List Rat) :=
  if v.length = sc.mean.length then
    .ok (zipWith3 (fun x m s => (x - m) / s) v sc.mean sc.scale)
  else .error (.shapeMismatch v.length sc.mean.length)

/-- Modelled from the spec (Classifier, §4.7): one fitted decision tree of
the random forest — internal nodes compare one feature against a threshold,
leaves hold the training-sample class counts. -/
inductive DTree where
  | leaf (c0 c1 : Nat)
  | node (feat : Nat) (thr : Rat) (lo hi : DTree)

/-- Class counts at the leaf reached by a feature vector. -/
def DTree.classCounts : DTree → List Rat → Nat × Nat
  | .leaf c0 c1, _ => (c0, c1)
  | .node feat thr lo hi, x =>
    if x.getD feat 0 ≤ thr then lo.classCounts x else hi.classCounts x

/-- A fitted tree is well formed when every leaf holds at least one training
sample, as scikit-learn guarantees. -/
def DTree.wellFormed : DTree → Bool
  | .leaf c0 c1 => decide (0 < c0 + c1)
  | .node _ _ lo hi => lo.wellFormed && hi.wellFormed

/-- Modelled from the spec: a tree's class distribution — the reached leaf's
class counts normalised by their total. -/
def DTree.proba (t : DTree) (x : List Rat) : Rat × Rat :=
  ((((t.classCounts x).1 : Nat) : Rat) / (((t.classCounts x).1 + (t.classCounts x).2 : Nat) : Rat),
   (((t.classCounts x).2 : Nat) : Rat) / (((t.classCounts x).1 + (t.classCounts x).2 : Nat) : Rat))

/-- Modelled from the spec: RandomForest predict_proba — the mean of the
per-tree class distributions, index 0 legitimate, index 1 phishing. -/
def forest_predict_proba (trees : List DTree) (x : List Rat) : Rat × Rat :=
  (((trees.map (fun t => (t.proba x).1)).sum) / ((trees.length : Nat) : Rat),
   ((trees.map (fun t => (t.proba x).2)).sum) / ((trees.length : Nat) : Rat))

/-- Modelled from the spec: RandomForest predict — the class of largest mean
probability; numpy argmax keeps the first class on a tie. -/
def forest_predict (trees : List DTree) (x : List Rat) : Nat :=
  if (forest_predict_proba trees x).1 < (forest_predict_proba trees x).2 then 1 else 0

/-- The module-level globals of app.py holding the loaded components. -/
structure AppState where
  model : Option (List DTree)
  feature_extractor : Option FeatureExtractor
  scaler : Option StandardScaler

/-- Mirror of app.py load_model_components: the three joblib.load calls (a
none argument models a load that raises) assign the three globals in order;
any failure is caught and reported by returning false.  No consistency check
of the loaded components against each other is performed. -/
def load_model_components (m : Option (List DTree)) (fe : Option FeatureExtractor)
    (sc : Option StandardScaler) : AppState × Bool :=
  match m, fe, sc with
  | none, _, _ => (⟨none, none, none⟩, false)
  | some mv, none, _ => (⟨some mv, none, none⟩, false)
  | some mv, some fv, none => (⟨some mv, some fv, none⟩, false)
  | some mv, some fv, some sv => (⟨some mv, some fv, some sv⟩, true)

/-- The result dictionary built by app.py predict_phishing. -/
structure PredictionResult where
  prediction : Text
  confidence_phishing : Rat
  confidence_legitimate : Rat
  is_phishing : Bool

/-- Mirror of app.py predict_phishing: unloaded components are an error;
otherwise extract features, scale, predict — an exception anywhere inside
the try block (transform before fit, shape mismatch) is caught and returned
as an error value, modelled by Except. -/
def predict_phishing (st : AppState) (email_text : Text) :
    Except PipelineError PredictionResult :=
  match st.model, st.feature_extractor, st.scaler with
  | some trees, some fe, some sc =>
    match extract_all_features fe email_text with
    | .error e => .error e
    | .ok features =>
      match sc.transform features with
      | .error e => .error e
      | .ok features_scaled =>
        .ok ⟨(if forest_predict trees features_scaled = 1 then "Phishing".toList
              else "Legitimate".toList),
             (forest_predict_proba trees features_scaled).2,
             (forest_predict_proba trees features_scaled).1,
             forest_predict trees features_scaled == 1⟩
  | _, _, _ => .error .notLoaded

/-- Text containing every entry of the suspicious-word list, for the bound
counterexample. -/
def c10Text : Text :=
  ("urgent immediate act now limited time expires click here click now verify " ++
   "confirm update suspend suspended account security alert warning congratulations " ++
   "winner prize lottery free bonus offer deal discount save money cash credit loan " ++
   "debt investment guarantee risk-free no obligation act fast don\x27t delay hurry " ++
   "rush now today only limited offer exclusive special amazing incredible " ++
   "unbelievable fantastic wonderful").toList

/-- The sentence count as the specification words it: the number of pieces
from splitting on runs of sentence-ending punctuation, with a minimum of 1. -/
def spec_sentence_count (t : Text) : Nat := max ((re_split_runs sentEnd t).length) 1

theorem extract_basic_features_length (t : Text) : (extract_basic_features t).length = 8 := by
  unfold extract_basic_features
  split <;> simp

theorem extract_advanced_features_length (t : Text) : (extract_advanced_features t).length = 5 := by
  unfold extract_advanced_features
  split <;> simp

theorem extract_all_features_ok (fe : FeatureExtractor) (entries : List (Text × Rat)) (t : Text)
    (hfit : fe.tfidf_vectorizer.vocab = some entries) :
    extract_all_features fe t =
      .ok (extract_basic_features t ++ extract_advanced_features t ++
        entries.map (fun e => (((ngram_terms (preprocess_email t)).count e.1 : Nat) : Rat) * e.2)) := by
  simp [extract_all_features, extract_tfidf_features, TfidfVectorizer.transform, hfit]

theorem fit_tfidf_vocab_le (fe : FeatureExtractor) (corpus : List Text) :
    ∃ es, (fit_tfidf fe corpus).tfidf_vectorizer.vocab = some es ∧
      es.length ≤ fe.tfidf_vectorizer.max_features := by
  refine ⟨_, rfl, ?_⟩
  simp [fit_tfidf, TfidfVectorizer.fit, List.length_take]

theorem re_split_runs_length_pos (p : Char → Bool) (l : Text) :
    1 ≤ (re_split_runs p l).length := by
  cases l with
  | nil => simp [re_split_runs]
  | cons c rest =>
    rw [re_split_runs]
    by_cases h : p c
    · simp [h]
    · simp [h]
      split <;> simp

theorem remove_html_tags_sublist (l : Text) : (remove_html_tags l).Sublist l := by
  induction l using remove_html_tags.induct with
  | case1 => simp [remove_html_tags]
  | case2 rest ih =>
    rw [remove_html_tags]
    rw [if_pos rfl]
    exact (ih.trans (List.drop_sublist _ _)).trans (List.sublist_cons_self '<' rest)
  | case3 c rest h ih =>
    rw [remove_html_tags]
    rw [if_neg h]
    exact ih.cons₂ c

theorem scanUrls_kept_sublist (fuel : Nat) (l : Text) : ((scanUrls fuel l).2).Sublist l := by
  induction fuel generalizing l with
  | zero => simp [scanUrls]
  | succ n ih =>
    cases l with
    | nil => simp [scanUrls]
    | cons c rest =>
      rw [scanUrls]
      cases hm : matchUrlAt (c :: rest) with
      | some k =>
        simp only []
        exact ((ih _).trans (List.drop_sublist _ _))
      | none =>
        simp only []
        exact (ih rest).cons₂ c

theorem scanEmails_kept_sublist (fuel : Nat) (b : Bool) (l : Text) :
    ((scanEmails fuel b l).2).Sublist l := by
  induction fuel generalizing b l with
  | zero => simp [scanEmails]
  | succ n ih =>
    cases l with
    | nil => simp [scanEmails]
    | cons c rest =>
      rw [scanEmails]
      cases hm : matchEmailAt b (c :: rest) with
      | some k =>
        simp only []
        exact ((ih _ _).trans (List.drop_sublist _ _))
      | none =>
        simp only []
        exact (ih _ rest).cons₂ c

theorem word_tokenize_eq_nil (t : Text) (h : ∀ c ∈ t, c.isAlphanum = false) :
    word_tokenize t = [] := by
  induction t with
  | nil => simp [word_tokenize]
  | cons c rest ih =>
    have hc : c.isAlphanum = false := h c (by simp)
    rw [word_tokenize]
    simp [hc]
    exact ih (fun d hd => h d (by simp [hd]))

theorem pyLower_nonalnum {c : Char} (h : c.isAlphanum = false) : pyLower c = c := by
  unfold pyLower
  split
  · rename_i hu
    simp [Char.isAlphanum, Char.isAlpha, hu] at h
  · rfl

theorem pySpace_not_alnum {c : Char} (h : pySpace c = true) : c.isAlphanum = false := by
  simp [pySpace] at h
  rcases h with ((((h | h) | h) | h) | h) | h
  all_goals subst h
  all_goals decide

theorem tokenize_and_clean_eq_nil (u : Text) (hu : ∀ c ∈ u, c.isAlphanum = false) :
    tokenize_and_clean u = [] := by
  unfold tokenize_and_clean
  split
  · rfl
  · have hw : word_tokenize (u.map pyLower) = [] := by
      apply word_tokenize_eq_nil
      intro d hd
      obtain ⟨c, hc, hrfl⟩ := List.mem_map.mp hd
      subst hrfl
      rw [pyLower_nonalnum (hu c hc)]
      exact hu c hc
    simp [hw]

theorem preprocess_no_letters (t : Text) (h : ∀ c ∈ t, c.isAlpha = false) :
    preprocess_email t = [] := by
  by_cases he : t.isEmpty
  · simp [preprocess_email, he]
  · have hsub : ∀ c ∈ remove_special_chars (remove_emails (remove_urls (remove_html_tags t))),
        c.isAlphanum = false := by
      intro c hc
      rw [remove_special_chars] at hc
      have hp : (c.isAlpha || pySpace c) = true := (List.mem_filter.mp hc).2
      have hmem3 : c ∈ remove_emails (remove_urls (remove_html_tags t)) :=
        (List.mem_filter.mp hc).1
      have hmem : c ∈ t := by
        have s1 := remove_html_tags_sublist t
        have s2 := scanUrls_kept_sublist (remove_html_tags t).length (remove_html_tags t)
        have s3 := scanEmails_kept_sublist (remove_urls (remove_html_tags t)).length false
          (remove_urls (remove_html_tags t))
        exact s1.subset (s2.subset (s3.subset hmem3))
      have ha : c.isAlpha = false := h c hmem
      rw [ha] at hp
      simp at hp
      exact pySpace_not_alnum hp
    have htok := tokenize_and_clean_eq_nil _ hsub
    simp [preprocess_email, he, htok]
    rfl

theorem list_sum_const {c : List Rat} {a : Rat} (h : ∀ x ∈ c, x = a) :
    c.sum = c.length * a := by
  induction c with
  | nil => simp
  | cons x xs ih =>
    have hx := h x (by simp)
    have ihh := ih (fun y hy => h y (by simp [hy]))
    simp [List.sum_cons, hx, ihh]
    ring

theorem colMean_const {c : List Rat} {a : Rat} (hne : c ≠ []) (h : ∀ x ∈ c, x = a) :
    colMean c = a := by
  have hlen : (c.length : Rat) ≠ 0 := by
    have : c.length ≠ 0 := fun h0 => hne (List.length_eq_zero.mp h0)
    exact_mod_cast this
  unfold colMean
  rw [list_sum_const h, mul_comm, mul_div_assoc, div_self hlen, mul_one]

theorem colVar_const {c : List Rat} {a : Rat} (hne : c ≠ []) (h : ∀ x ∈ c, x = a) :
    colVar c = 0 := by
  unfold colVar
  have hm := colMean_const hne h
  have hz : ∀ y ∈ c.map (fun x => (x - colMean c) ^ 2), y = 0 := by
    intro y hy
    obtain ⟨x, hx, hrfl⟩ := List.mem_map.mp hy
    subst hrfl
    rw [h x hx, hm]
    ring
  rw [list_sum_const hz]
  simp

theorem columnJ_const {X : List (List Rat)} {j : Nat} {a : Rat}
    (h : ∀ row ∈ X, row.getD j 0 = a) : ∀ x ∈ columnJ X j, x = a := by
  intro x hx
  obtain ⟨row, hrow, hrfl⟩ := List.mem_map.mp hx
  subst hrfl
  exact h row hrow

theorem zipWith3_idx (f : Rat → Rat → Rat → Rat) :
    ∀ (la lb lc : List Rat) (n : Nat) (x y z : Rat),
      la[n]? = some x → lb[n]? = some y → lc[n]? = some z →
      (zipWith3 f la lb lc)[n]? = some (f x y z) := by
  intro la
  induction la with
  | nil => intro lb lc n x y z ha _ _; simp at ha
  | cons a0 as ih =>
    intro lb lc n x y z ha hb hc
    cases lb with
    | nil => simp at hb
    | cons b0 bs =>
      cases lc with
      | nil => simp at hc
      | cons c0 cs =>
        cases n with
        | zero =>
          simp at ha hb hc
          subst ha; subst hb; subst hc
          simp [zipWith3]
        | succ m =>
          simp at ha hb hc
          simpa [zipWith3] using ih bs cs m x y z ha hb hc

theorem range_map_idx (f : Nat → Rat) {n j : Nat} (hj : j < n) :
    ((List.range n).map f)[j]? = some (f j) := by
  simp [List.getElem?_map, List.getElem?_range, hj]

theorem classCounts_pos (tr : DTree) (x : List Rat) (h : tr.wellFormed = true) :
    0 < (tr.classCounts x).1 + (tr.classCounts x).2 := by
  induction tr with
  | leaf c0 c1 => simpa [DTree.wellFormed, DTree.classCounts] using h
  | node f thr lo hi ihlo ihhi =>
    simp [DTree.wellFormed] at h
    unfold DTree.classCounts
    split
    · exact ihlo h.1
    · exact ihhi h.2

theorem tree_proba_valid (tr : DTree) (x : List Rat) (h : tr.wellFormed = true) :
    0 ≤ (tr.proba x).1 ∧ (tr.proba x).1 ≤ 1 ∧ 0 ≤ (tr.proba x).2 ∧ (tr.proba x).2 ≤ 1 ∧
    (tr.proba x).1 + (tr.proba x).2 = 1 := by
  have hp := classCounts_pos tr x h
  have hden : (0 : Rat) < (((tr.classCounts x).1 + (tr.classCounts x).2 : Nat) : Rat) := by
    exact_mod_cast hp
  unfold DTree.proba
  refine ⟨div_nonneg (by positivity) hden.le, ?_, div_nonneg (by positivity) hden.le, ?_, ?_⟩
  · rw [div_le_one hden]
    exact_mod_cast Nat.le_add_right _ _
  · rw [div_le_one hden]
    exact_mod_cast Nat.le_add_left _ _
  · rw [div_add_div_same]
    rw [div_eq_one_iff_eq (ne_of_gt hden)]
    push_cast
    ring

theorem forest_sums (x : List Rat) (trees : List DTree)
    (hwf : ∀ tr ∈ trees, tr.wellFormed = true) :
    0 ≤ (trees.map (fun t => (t.proba x).1)).sum ∧
    (trees.map (fun t => (t.proba x).1)).sum ≤ (trees.length : Rat) ∧
    0 ≤ (trees.map (fun t => (t.proba x).2)).sum ∧
    (trees.map (fun t => (t.proba x).2)).sum ≤ (trees.length : Rat) ∧
    (trees.map (fun t => (t.proba x).1)).sum + (trees.map (fun t => (t.proba x).2)).sum
      = (trees.length : Rat) := by
  induction trees with
  | nil => simp
  | cons tr trs ih =>
    obtain ⟨a1, a2, a3, a4, a5⟩ := tree_proba_valid tr x (hwf tr (by simp))
    obtain ⟨b1, b2, b3, b4, b5⟩ := ih (fun q hq => hwf q (by simp [hq]))
    simp only [List.map_cons, List.sum_cons, List.length_cons]
    push_cast
    refine ⟨by linarith, by linarith, by linarith, by linarith, by linarith⟩

theorem forest_proba_valid (trees : List DTree) (x : List Rat)
    (hne : trees ≠ []) (hwf : ∀ tr ∈ trees, tr.wellFormed = true) :
    0 ≤ (forest_predict_proba trees x).1 ∧ (forest_predict_proba trees x).1 ≤ 1 ∧
    0 ≤ (forest_predict_proba trees x).2 ∧ (forest_predict_proba trees x).2 ≤ 1 ∧
    (forest_predict_proba trees x).1 + (forest_predict_proba trees x).2 = 1 := by
  obtain ⟨s1, s2, s3, s4, s5⟩ := forest_sums x trees hwf
  have hn : (0 : Rat) < (trees.length : Rat) := by
    have : 0 < trees.length := List.length_pos.mpr hne
    exact_mod_cast this
  unfold forest_predict_proba
  refine ⟨div_nonneg s1 hn.le, ?_, div_nonneg s3 hn.le, ?_, ?_⟩
  · rw [div_le_one hn]
    exact s2
  · rw [div_le_one hn]
    exact s4
  · rw [div_add_div_same, s5, div_self (ne_of_gt hn)]

/-- C1: once the vectorizer is fit, FeaturePipeline.transform
(extract_all_features) returns the concatenation of the basic statistics,
the advanced statistics and the lexical vector in that fixed order; its
length is the constant 8 + 5 + V for every text, where V is the fitted
vocabulary size, and a vocabulary produced by fit_tfidf has at most 1000
entries. -/
theorem extract_all_features_concat_and_length
    (fe : FeatureExtractor) (entries : List (Text × Rat)) (t : Text)
    (hfit : fe.tfidf_vectorizer.vocab = some entries) :
    (∃ tfv, extract_tfidf_features fe t = .ok tfv ∧
      extract_all_features fe t =
        .ok (extract_basic_features t ++ extract_advanced_features t ++ tfv) ∧
      (extract_basic_features t ++ extract_advanced_features t ++ tfv).length =
        8 + 5 + entries.length) ∧
    (∀ corpus, ∃ es,
      (fit_tfidf FeatureExtractor.init corpus).tfidf_vectorizer.vocab = some es ∧
      es.length ≤ 1000) := by
  constructor
  · refine ⟨_, ?_, extract_all_features_ok fe entries t hfit, ?_⟩
    · simp [extract_tfidf_features, TfidfVectorizer.transform, hfit]
    · simp [extract_basic_features_length, extract_advanced_features_length]
      omega
  · intro corpus
    exact fit_tfidf_vocab_le FeatureExtractor.init corpus

/-- Witness for C1 at a concrete fitted extractor and text. -/
theorem extract_all_features_concat_and_length_witness :
    (⟨⟨1000, some [("free".toList, (1 : Rat))]⟩⟩ :
        FeatureExtractor).tfidf_vectorizer.vocab = some [("free".toList, (1 : Rat))] ∧
    ∃ tfv, extract_all_features ⟨⟨1000, some [("free".toList, (1 : Rat))]⟩⟩ "hello".toList =
      .ok (extract_basic_features "hello".toList ++
        extract_advanced_features "hello".toList ++ tfv) ∧
      (extract_basic_features "hello".toList ++
        extract_advanced_features "hello".toList ++ tfv).length = 8 + 5 + 1 := by
  refine ⟨rfl, ?_⟩
  obtain ⟨⟨tfv, -, h2, h3⟩, -⟩ :=
    extract_all_features_concat_and_length ⟨⟨1000, some [("free".toList, (1 : Rat))]⟩⟩
      [("free".toList, (1 : Rat))] "hello".toList rfl
  exact ⟨tfv, h2, by simpa using h3⟩

/-- C2 counterexample: components that disagree on expected feature length (a
scaler fit for width 3, an extractor whose features have width 8 + 5 + 1) are
loaded with success reported — load_model_components performs no shape check,
so no shape-mismatch failure happens at load time. -/
theorem load_accepts_mismatched_components :
    (load_model_components (some [DTree.leaf 1 1])
      (some ⟨⟨1000, some [("free".toList, (1 : Rat))]⟩⟩)
      (some ⟨[0, 0, 0], [1, 1, 1]⟩)).2 = true ∧
    (([0, 0, 0] : List Rat).length ≠
      8 + 5 + ([("free".toList, (1 : Rat))] : List (Text × Rat)).length) :=
  ⟨rfl, by decide⟩

/-- C2 amended: loading persisted components performs no shape-consistency
check — load_model_components reports success even when the scaler's fitted
width disagrees with the feature length the extractor produces; the mismatch
surfaces at the first prediction as a shape-mismatch error, and the feature
vector is never silently truncated or padded. -/
theorem shape_mismatch_surfaces_at_predict
    (trees : List DTree) (fe : FeatureExtractor) (sc : StandardScaler)
    (entries : List (Text × Rat)) (t : Text)
    (hfit : fe.tfidf_vectorizer.vocab = some entries)
    (hmis : sc.mean.length ≠ 8 + 5 + entries.length) :
    (load_model_components (some trees) (some fe) (some sc)).2 = true ∧
    predict_phishing (load_model_components (some trees) (some fe) (some sc)).1 t =
      .error (.shapeMismatch (8 + 5 + entries.length) sc.mean.length) := by
  refine ⟨rfl, ?_⟩
  have hall := extract_all_features_ok fe entries t hfit
  have hflen : (extract_basic_features t ++ extract_advanced_features t ++
      entries.map (fun e => (((ngram_terms (preprocess_email t)).count e.1 : Nat) : Rat) * e.2)).length
      = 8 + 5 + entries.length := by
    simp [extract_basic_features_length, extract_advanced_features_length]
    omega
  have htr : StandardScaler.transform sc (extract_basic_features t ++ extract_advanced_features t ++
      entries.map (fun e => (((ngram_terms (preprocess_email t)).count e.1 : Nat) : Rat) * e.2)) =
      .error (.shapeMismatch (8 + 5 + entries.length) sc.mean.length) := by
    unfold StandardScaler.transform
    rw [if_neg (by rw [hflen]; exact fun hx => hmis hx.symm), hflen]
  simp only [load_model_components, predict_phishing, hall, htr]

/-- Witness for the amended C2 at concrete mismatched components. -/
theorem shape_mismatch_surfaces_at_predict_witness :
    (([0, 0, 0] : List Rat).length ≠
      8 + 5 + ([("free".toList, (1 : Rat))] : List (Text × Rat)).length) ∧
    (load_model_components (some [DTree.leaf 1 1])
      (some ⟨⟨1000, some [("free".toList, (1 : Rat))]⟩⟩)
      (some ⟨[0, 0, 0], [1, 1, 1]⟩)).2 = true ∧
    predict_phishing (load_model_components (some [DTree.leaf 1 1])
      (some ⟨⟨1000, some [("free".toList, (1 : Rat))]⟩⟩)
      (some ⟨[0, 0, 0], [1, 1, 1]⟩)).1 "hi".toList =
      .error (.shapeMismatch (8 + 5 + 1) 3) := by
  refine ⟨by decide, ?_, ?_⟩
  · exact (shape_mismatch_surfaces_at_predict [DTree.leaf 1 1]
      ⟨⟨1000, some [("free".toList, (1 : Rat))]⟩⟩ ⟨[0, 0, 0], [1, 1, 1]⟩
      [("free".toList, (1 : Rat))] "hi".toList rfl (by decide)).1
  · have h := (shape_mismatch_surfaces_at_predict [DTree.leaf 1 1]
      ⟨⟨1000, some [("free".toList, (1 : Rat))]⟩⟩ ⟨[0, 0, 0], [1, 1, 1]⟩
      [("free".toList, (1 : Rat))] "hi".toList rfl (by decide)).2
    simpa using h

/-- C3: calling the lexical transform before fit is an error —
extract_tfidf_features, and hence extract_all_features, returns the
not-fitted error rather than a vector. -/
theorem transform_before_fit_errors (fe : FeatureExtractor) (t : Text)
    (hunfit : fe.tfidf_vectorizer.vocab = none) :
    extract_tfidf_features fe t = .error .notFitted ∧
    extract_all_features fe t = .error .notFitted := by
  have h1 : extract_tfidf_features fe t = .error .notFitted := by
    simp [extract_tfidf_features, TfidfVectorizer.transform, hunfit]
  exact ⟨h1, by simp [extract_all_features, h1]⟩

/-- Witness for C3 at the freshly initialised extractor. -/
theorem transform_before_fit_errors_witness :
    FeatureExtractor.init.tfidf_vectorizer.vocab = none ∧
    extract_all_features FeatureExtractor.init "hello".toList = .error .notFitted :=
  ⟨rfl, (transform_before_fit_errors FeatureExtractor.init "hello".toList rfl).2⟩

/-- C4: on empty (falsy) input the statistical extractors return all-zero
vectors of their fixed lengths (8 and 5) and the sanitizer and tokenizer
return empty results, without raising. -/
theorem empty_input_zero_vectors :
    extract_basic_features [] = List.replicate 8 0 ∧
    extract_advanced_features [] = List.replicate 5 0 ∧
    preprocess_email [] = [] ∧
    tokenize_and_clean [] = [] := ⟨rfl, rfl, rfl, rfl⟩

/-- C5: sanitisation and tokenisation treat every string as valid input and
degrade to empty results rather than failing: text with no ASCII letters
sanitises to the empty string, text with no alphanumeric characters tokenises
to the empty sequence, and empty input gives empty output; the embedded
functions are total, so no input raises. -/
theorem sanitization_total_degrades_empty (t u : Text)
    (ht : ∀ c ∈ t, c.isAlpha = false) (hu : ∀ c ∈ u, c.isAlphanum = false) :
    preprocess_email t = [] ∧ tokenize_and_clean u = [] ∧
    preprocess_email [] = [] ∧ tokenize_and_clean [] = [] :=
  ⟨preprocess_no_letters t ht, tokenize_and_clean_eq_nil u hu, rfl, rfl⟩

/-- Witness for C5 at concrete no-usable-content inputs. -/
theorem sanitization_total_degrades_empty_witness :
    (∀ c ∈ ("123 !?!".toList), c.isAlpha = false) ∧
    preprocess_email "123 !?!".toList = [] ∧ tokenize_and_clean "$$$".toList = [] := by
  refine ⟨by decide, ?_, ?_⟩
  · exact (sanitization_total_degrades_empty "123 !?!".toList "$$$".toList
      (by decide) (by decide)).1
  · exact (sanitization_total_degrades_empty "123 !?!".toList "$$$".toList
      (by decide) (by decide)).2.1

/-- C6: fitting the scaler on a matrix whose column j holds identical values
stores scale 1 for that column (the zero-variance fallback), every stored
scale is nonzero (so no division by zero, hence no NaN or Inf arises in the
rational model), and transforming any compatible vector yields entry j equal
to the value minus the mean. -/
theorem scaler_zero_variance_fallback
    (X : List (List Rat)) (nFeatures j : Nat) (a : Rat) (v : List Rat)
    (hX : X ≠ []) (hj : j < nFeatures)
    (hconst : ∀ row ∈ X, row.getD j 0 = a)
    (hv : v.length = nFeatures) :
    (StandardScaler.fit nFeatures X).scale[j]? = some 1 ∧
    (∀ (k : Nat) (s : Rat),
      (StandardScaler.fit nFeatures X).scale[k]? = some s → s ≠ 0) ∧
    ∃ w, (StandardScaler.fit nFeatures X).transform v = .ok w ∧
      w[j]? = some (v.getD j 0 - a) := by
  have hcol : ∀ x ∈ columnJ X j, x = a := columnJ_const hconst
  have hcolne : columnJ X j ≠ [] := by
    unfold columnJ
    simpa using hX
  have hvar : colVar (columnJ X j) = 0 := colVar_const hcolne hcol
  have hscale : scaleOfCol (columnJ X j) = 1 := by simp [scaleOfCol, hvar]
  have hsj : (StandardScaler.fit nFeatures X).scale[j]? = some 1 := by
    unfold StandardScaler.fit
    simp only []
    rw [range_map_idx _ hj, hscale]
  refine ⟨hsj, ?_, ?_⟩
  · intro k s hks
    unfold StandardScaler.fit at hks
    simp only [] at hks
    by_cases hk : k < nFeatures
    · rw [range_map_idx _ hk] at hks
      have : scaleOfCol (columnJ X k) = s := by injection hks
      subst this
      unfold scaleOfCol
      split
      · exact one_ne_zero
      · assumption
    · rw [List.getElem?_eq_none] at hks
      · simp at hks
      · simp [hk]
        omega
  · have hmlen : (StandardScaler.fit nFeatures X).mean.length = nFeatures := by
      unfold StandardScaler.fit
      simp
    have hok : (StandardScaler.fit nFeatures X).transform v =
        .ok (zipWith3 (fun x m s => (x - m) / s) v (StandardScaler.fit nFeatures X).mean
          (StandardScaler.fit nFeatures X).scale) := by
      unfold StandardScaler.transform
      rw [if_pos (by rw [hmlen, hv])]
    refine ⟨_, hok, ?_⟩
    have hvj : v[j]? = some (v.getD j 0) := by
      have hjv : j < v.length := by omega
      rw [List.getElem?_eq_getElem hjv]
      rw [List.getD_eq_getElem]
    have hmj : (StandardScaler.fit nFeatures X).mean[j]? = some a := by
      unfold StandardScaler.fit
      simp only []
      rw [range_map_idx _ hj, colMean_const hcolne hcol]
    rw [zipWith3_idx _ v _ _ j _ _ _ hvj hmj hsj]
    norm_num

/-- Witness for C6 at a concrete matrix with a constant first column. -/
theorem scaler_zero_variance_fallback_witness :
    (∀ row ∈ ([[1, 5], [1, 7]] : List (List Rat)), row.getD 0 0 = 1) ∧
    ∃ w, (StandardScaler.fit 2 [[1, 5], [1, 7]]).transform [4, 6] = .ok w ∧
      w[0]? = some ((4 : Rat) - 1) := by
  refine ⟨by decide, ?_⟩
  obtain ⟨-, -, w, hw, hj⟩ := scaler_zero_variance_fallback [[1, 5], [1, 7]] 2 0 1 [4, 6]
    (by decide) (by decide) (by decide) (by decide)
  refine ⟨w, hw, ?_⟩
  simpa using hj

/-- C7: for every text classified with a loaded, fitted, shape-compatible
bundle, the two returned class probabilities each lie in [0, 1] and sum to 1
(exactly, in the rational model). -/
theorem predict_probabilities_valid
    (trees : List DTree) (fe : FeatureExtractor) (sc : StandardScaler)
    (entries : List (Text × Rat)) (t : Text)
    (hfit : fe.tfidf_vectorizer.vocab = some entries)
    (htrees : trees ≠ [])
    (hwf : ∀ tr ∈ trees, tr.wellFormed = true)
    (hlen : sc.mean.length = 8 + 5 + entries.length) :
    ∃ r, predict_phishing ⟨some trees, some fe, some sc⟩ t = .ok r ∧
      0 ≤ r.confidence_legitimate ∧ r.confidence_legitimate ≤ 1 ∧
      0 ≤ r.confidence_phishing ∧ r.confidence_phishing ≤ 1 ∧
      r.confidence_legitimate + r.confidence_phishing = 1 := by
  have hall := extract_all_features_ok fe entries t hfit
  set feats := extract_basic_features t ++ extract_advanced_features t ++
      entries.map (fun e => (((ngram_terms (preprocess_email t)).count e.1 : Nat) : Rat) * e.2)
    with hfeats
  have hflen : feats.length = 8 + 5 + entries.length := by
    rw [hfeats]
    simp [extract_basic_features_length, extract_advanced_features_length]
    omega
  set scaled := zipWith3 (fun x m s => (x - m) / s) feats sc.mean sc.scale with hscaled
  have htr : sc.transform feats = .ok scaled := by
    rw [hscaled]
    unfold StandardScaler.transform
    rw [if_pos (by rw [hflen, hlen])]
  obtain ⟨p1, p2, p3, p4, p5⟩ := forest_proba_valid trees scaled htrees hwf
  refine ⟨⟨(if forest_predict trees scaled = 1 then "Phishing".toList else "Legitimate".toList),
      (forest_predict_proba trees scaled).2, (forest_predict_proba trees scaled).1,
      forest_predict trees scaled == 1⟩, ?_, p1, p2, p3, p4, by linarith⟩
  simp only [predict_phishing, hall, htr]

/-- Witness for C7 at a concrete one-tree bundle. -/
theorem predict_probabilities_valid_witness :
    (([DTree.leaf 1 1] : List DTree) ≠ []) ∧
    ∃ r, predict_phishing ⟨some [DTree.leaf 1 1],
        some ⟨⟨1000, some [("free".toList, (1 : Rat))]⟩⟩,
        some ⟨List.replicate 14 0, List.replicate 14 1⟩⟩ "hi".toList = .ok r ∧
      0 ≤ r.confidence_legitimate ∧ r.confidence_legitimate ≤ 1 ∧
      0 ≤ r.confidence_phishing ∧ r.confidence_phishing ≤ 1 ∧
      r.confidence_legitimate + r.confidence_phishing = 1 := by
  refine ⟨by simp, ?_⟩
  exact predict_probabilities_valid [DTree.leaf 1 1]
    ⟨⟨1000, some [("free".toList, (1 : Rat))]⟩⟩
    ⟨List.replicate 14 0, List.replicate 14 1⟩ [("free".toList, (1 : Rat))] "hi".toList rfl
    (by simp) (by decide) (by simp)

/-- C8: for non-empty text the advanced features report the sentence count as
the number of pieces from splitting on runs of sentence-ending punctuation
(with a minimum of 1, which the split structurally guarantees), and the
average words-per-sentence as the whitespace-split word count divided by
max(sentence count, 1). -/
theorem advanced_sentence_count_avg (t : Text) (h : t ≠ []) :
    (extract_advanced_features t)[1]? = some ((spec_sentence_count t : Nat) : Rat) ∧
    1 ≤ spec_sentence_count t ∧
    (extract_advanced_features t)[2]? =
      some (((pySplit t).length : Rat) /
        ((max (spec_sentence_count t) 1 : Nat) : Rat)) := by
  have hpos := re_split_runs_length_pos sentEnd t
  have hmax : spec_sentence_count t = (re_split_runs sentEnd t).length := by
    unfold spec_sentence_count
    omega
  have hne : t.isEmpty = false := by simpa [List.isEmpty_iff] using h
  unfold extract_advanced_features
  rw [hmax]
  simp [hne]
  omega

/-- Witness for C8 at a concrete two-sentence text. -/
theorem advanced_sentence_count_avg_witness :
    ("Hi there. Ok?".toList ≠ []) ∧
    (extract_advanced_features "Hi there. Ok?".toList)[1]? =
      some ((spec_sentence_count "Hi there. Ok?".toList : Nat) : Rat) :=
  ⟨by decide, (advanced_sentence_count_avg "Hi there. Ok?".toList (by decide)).1⟩

/-- C9: the third basic feature (character count) equals the first basic
feature (text length) for every text, both the raw character count — the
duplicated field is preserved. -/
theorem char_count_duplicates_text_length (t : Text) :
    (extract_basic_features t)[0]? = some ((t.length : Nat) : Rat) ∧
    (extract_basic_features t)[2]? = some ((t.length : Nat) : Rat) ∧
    (extract_basic_features t)[0]? = (extract_basic_features t)[2]? := by
  unfold extract_basic_features
  by_cases h : t.isEmpty
  · have ht : t = [] := by simpa [List.isEmpty_iff] using h
    subst ht
    refine ⟨by simp, by simp, rfl⟩
  · exact ⟨by simp [h], by simp [h], by simp [h]⟩

set_option maxRecDepth 1000000 in
/-- C10 counterexample: the suspicious-word list has 49 entries, not 48, and
the text holding every listed phrase scores 49, exceeding the claimed upper
bound of 48. -/
theorem suspicious_count_reaches_49 :
    suspicious_words.length = 49 ∧
    suspicious_count c10Text = 49 ∧
    ¬ (suspicious_count c10Text ≤ 48) ∧
    (extract_basic_features c10Text)[5]? = some ((49 : Nat) : Rat) := by
  have h : suspicious_count c10Text = 49 := by decide
  have hne : c10Text.isEmpty = false := rfl
  refine ⟨rfl, h, by omega, ?_⟩
  simp [extract_basic_features, hne, h]

/-- C10 amended: the suspicious-word basic feature counts each of the 49
listed terms at most once (case-insensitive substring containment, not an
occurrence count), so its value is an integer between 0 and 49 for every
text, however often a term repeats. -/
theorem suspicious_count_bounded (t : Text) :
    suspicious_words.length = 49 ∧
    ∃ k : Nat, k ≤ 49 ∧ (extract_basic_features t)[5]? = some ((k : Nat) : Rat) := by
  refine ⟨rfl, ?_⟩
  unfold extract_basic_features
  by_cases h : t.isEmpty
  · exact ⟨0, by omega, by simp [h]⟩
  · refine ⟨suspicious_count t, ?_, by simp [h]⟩
    have h2 : suspicious_count t ≤ suspicious_words.length := List.countP_le_length _
    have h3 : suspicious_words.length = 49 := rfl
    omega

end PhishingDetector
